import Mathlib

/-
Verification of the bioinfo-scripts repository.

The development shallowly embeds the three tabular scripts
(prep_mutation_files.py, make_pyclone_input.py, merge_pyclone_inputs.py).
Tables are lists of records, pandas columns become record fields, the
alignment-file depth query (pysamstats.stat_coverage, an external
collaborator) is an abstract function parameter, and the unbounded
header-scanning loop of get_purity_ploidy is given fuel semantics so that
divergence is expressible.  Python integers are Int; strings are String.
-/

/-! ## String utilities

The scripts use Python's substring test (`pat in line`) and `int(...)`
parsing.  Both are embedded as executable functions on the character data
of a string so that concrete inputs evaluate inside the kernel. -/

/-- Whether `p` is a prefix of `t`, on character lists (Python `str.startswith`
at one offset; used to express the substring test). -/
def listStartsWith : List Char → List Char → Bool
  | [], _ => true
  | _ :: _, [] => false
  | p :: ps, t :: ts => p == t && listStartsWith ps ts

/-- Whether `pat` occurs as a contiguous sublist of the text. -/
def listContainsSub (pat : List Char) : List Char → Bool
  | [] => listStartsWith pat []
  | t :: ts => listStartsWith pat (t :: ts) || listContainsSub pat ts

/-- Embedding of Python's substring containment test `pat in text`. -/
def strContains (text pat : String) : Bool :=
  listContainsSub pat.data text.data

/-- Value of a decimal digit character, `none` on a non-digit. -/
def digitVal (c : Char) : Option Nat :=
  if c.isDigit then some (c.toNat - 48) else none

/-- Accumulate decimal digits left to right; `none` once a non-digit is hit
or when no digit was seen at all. -/
def parseNatDigits : List Char → Option Nat → Option Nat
  | [], acc => acc
  | c :: cs, acc =>
    match digitVal c, acc with
    | some d, some n => parseNatDigits cs (some (10 * n + d))
    | some d, none => parseNatDigits cs (some d)
    | none, _ => none

/-- Embedding of Python's `int(s)` on decimal literals: an optional leading
minus sign followed by at least one digit; anything else fails. -/
def pyInt (s : String) : Option Int :=
  match s.data with
  | [] => none
  | c :: cs =>
    if c = '-' then (parseNatDigits cs none).map (fun n => -(n : Int))
    else (parseNatDigits (c :: cs) none).map (fun n => (n : Int))

/-! ## prep_mutation_files.py : data model

A MAF table row carries the columns the script reads and writes.  The
pandas dataframe columns `Chromosome`, `Start_Position`, `End_Position`,
`Reference_Allele`, `Tumor_Seq_Allele2`, `t_ref_count`, `t_alt_count`
become fields of the record; a table is a list of rows in file order. -/

/-- One row of a MAF mutation table, restricted to the columns the scripts
touch. -/
structure MafRow where
  Chromosome : String
  Start_Position : Int
  End_Position : Int
  Reference_Allele : String
  Tumor_Seq_Allele2 : String
  t_ref_count : Int
  t_alt_count : Int
deriving DecidableEq, Repr

/-- Components of a mutation identity.  The script packs these five
components into the string column `mid` (`chrom:start:end:ref>alt`) and
unpacks them again with `mut.split` in `add_absent_mutations`; the
embedding carries the components themselves and keeps the packed string as
`midStr` below. -/
structure MutId where
  chrom : String
  start : Int
  «end» : Int
  ref : String
  alt : String
deriving DecidableEq, Repr

/-- Identity components of a MAF row. -/
def midId (r : MafRow) : MutId :=
  ⟨r.Chromosome, r.Start_Position, r.End_Position, r.Reference_Allele, r.Tumor_Seq_Allele2⟩

/-- Packed string form of a mutation identity, exactly as built in
`find_exclusive_mutations`: `chrom:start:end:ref>alt` (pandas `astype(str)`
of an integer column prints the decimal numeral, i.e. `toString`). -/
def midStr (k : MutId) : String :=
  k.chrom ++ ":" ++ toString k.start ++ ":" ++ toString k.«end» ++ ":" ++ k.ref ++ ">" ++ k.alt

/-- The `mid` column value computed by `find_exclusive_mutations` for a row
(line 29/31 of prep_mutation_files.py). -/
def mid (r : MafRow) : String :=
  r.Chromosome ++ ":" ++ toString r.Start_Position ++ ":" ++ toString r.End_Position ++ ":" ++ r.Reference_Allele ++ ">" ++ r.Tumor_Seq_Allele2

/-- Embedding of `find_exclusive_mutations`: compute the mutation identities
of both tables, and return the two set differences (primary-specific and
metastasis-specific).  Python's `set(...)` deduplicates, here `List.dedup`;
the code subtracts sets of packed `mid` strings, the embedding subtracts the
corresponding identity components (see `midStr_inj` for the correspondence). -/
def find_exclusive_mutations (pdf mdf : List MafRow) : List MutId × List MutId :=
  let pMutIds := (pdf.map midId).dedup
  let mMutIds := (mdf.map midId).dedup
  (pMutIds.filter (fun k => !(mMutIds.contains k)),
   mMutIds.filter (fun k => !(pMutIds.contains k)))

/-! ## prep_mutation_files.py : add_absent_mutations

The per-position depth query `pysamstats.stat_coverage(bam, chrom, start,
end+1, truncate, one_based)` is an external collaborator (out of scope per
the spec); it is abstracted as a function from the queried coordinates to
the list of returned coverage records. -/

/-- One coverage record returned by the depth query; the script only reads
its `reads_all` field. -/
structure CoverageRec where
  reads_all : Int
deriving DecidableEq, Repr

/-- Abstract alignment-file depth source: maps a queried window
(chromosome, start, end) to the list of coverage records
`pysamstats.stat_coverage` yields for it. -/
def Bam : Type := String → Int → Int → List CoverageRec

/-- Result of `list(pst.stat_coverage(bam, chrom, start, end + 1, ...))`
for one absent mutation: the script queries the window from the mutation's
start to its end plus one. -/
def stat_coverage_info (bam : Bam) (m : MutId) : List CoverageRec :=
  bam m.chrom m.start (m.«end» + 1)

/-- The record synthesized for one absent mutation when the depth query
returns at least one coverage record: the mutation's coordinates and
alleles, `t_ref_count` the `reads_all` of the first record, and a fixed
`t_alt_count` of zero; `none` when the query comes back empty. -/
def synth_row (bam : Bam) (m : MutId) : Option MafRow :=
  match stat_coverage_info bam m with
  | [] => none
  | info :: _ =>
    some ⟨m.chrom, m.start, m.«end», m.ref, m.alt, info.reads_all, 0⟩

/-- The for-loop of `add_absent_mutations` with its two accumulators: the
list `records` of synthesized rows and the `skipCounter` of mutations whose
depth query returned no records. -/
def add_absent_loop (bam : Bam) : List MutId → List MafRow → Nat → List MafRow × Nat
  | [], records, skipCounter => (records, skipCounter)
  | m :: rest, records, skipCounter =>
    match stat_coverage_info bam m with
    | [] => add_absent_loop bam rest records (skipCounter + 1)
    | info :: _ =>
      add_absent_loop bam rest
        (records ++ [⟨m.chrom, m.start, m.«end», m.ref, m.alt, info.reads_all, 0⟩])
        skipCounter

/-- Embedding of `add_absent_mutations`: run the query loop over the absent
mutations and concatenate the synthesized records after the original table
(`pd.concat([mutdf, newdf])`).  Returns the new table together with the
final skip count. -/
def add_absent_mutations (mutdf : List MafRow) (absentMuts : List MutId) (bam : Bam) :
    List MafRow × Nat :=
  let rs := add_absent_loop bam absentMuts [] 0
  (mutdf ++ rs.1, rs.2)

/-- The reconciliation pipeline of `main`: find the exclusive mutations,
then add the metastasis-specific ones to the primary table (queried against
the primary sample's alignment source) and the primary-specific ones to the
metastatic table (queried against the metastatic sample's source). -/
def reconcile_mafs (pdf mdf : List MafRow) (pBam mBam : Bam) :
    List MafRow × List MafRow :=
  let specs := find_exclusive_mutations pdf mdf
  ((add_absent_mutations pdf specs.2 pBam).1,
   (add_absent_mutations mdf specs.1 mBam).1)

/-! ## make_pyclone_input.py : purity/ploidy extraction

The `while` loop of `get_purity_ploidy` reads lines from a gzip text
stream; Python's `readline` returns the empty string forever once the
stream is exhausted, so the stream is a list of lines extended by empty
strings.  The loop need not terminate, so it takes fuel: `none` means the
fuel ran out, and divergence is `none` for every fuel. -/

/-- Reading the i-th line of the stream: past the end, Python's `readline`
returns the empty string. -/
def readline (lines : List String) (i : Nat) : String :=
  lines.getD i ""

/-- Embedding of `line.rstrip()` (trailing whitespace removed). -/
def rstrip (s : String) : String := s.trimRight

/-- One iteration of the scanning loop body: set purity from a line
containing `##purity`, otherwise set ploidy from a line containing
`##ploidy` (the `elif` never fires on a line that also contains the purity
tag), otherwise leave the state alone. -/
def gpp_step (line : String) (purity ploidy : Option String) :
    Option String × Option String :=
  if strContains line "##purity" then
    (some ((rstrip line).replace "##purity=" ""), ploidy)
  else if strContains line "##ploidy" then
    (purity, some ((rstrip line).replace "##ploidy=" ""))
  else (purity, ploidy)

/-- Fuelled form of the `while purity is None or ploidy is None` loop,
reading line `i` each iteration.  Returns `none` exactly when the fuel is
exhausted before both values are found. -/
def get_purity_ploidy_loop (lines : List String) :
    Nat → Nat → Option String → Option String → Option (Option String × Option String)
  | 0, _, _, _ => none
  | fuel + 1, i, purity, ploidy =>
    if purity.isNone || ploidy.isNone then
      get_purity_ploidy_loop lines fuel (i + 1)
        (gpp_step (readline lines i) purity ploidy).1
        (gpp_step (readline lines i) purity ploidy).2
    else some (purity, ploidy)

/-- Embedding of `get_purity_ploidy`, started on the first line with both
values unset. -/
def get_purity_ploidy (lines : List String) (fuel : Nat) :
    Option (Option String × Option String) :=
  get_purity_ploidy_loop lines fuel 0 none none

/-- The scan diverges: no amount of fuel makes it return. -/
def gpp_diverges (lines : List String) : Prop :=
  ∀ fuel, get_purity_ploidy lines fuel = none

/-- A line the loop's first branch fires on: it contains the purity tag. -/
def purity_tagged (line : String) : Bool :=
  strContains line "##purity"

/-- A line containing the ploidy tag. -/
def ploidy_tagged (line : String) : Bool :=
  strContains line "##ploidy"

/-- A line the loop's `elif` branch fires on: it contains the ploidy tag
but not the purity tag. -/
def ploidy_only (line : String) : Bool :=
  strContains line "##ploidy" && !(strContains line "##purity")

/-! ## make_pyclone_input.py : copy-number segments -/

/-- One row of the FACETS copy-number CSV as read, with the raw `lcn_em`
cell still a string: the file uses the placeholder token `.` for a missing
lesser copy number. -/
structure CnRawRow where
  chrom : String
  start : Int
  «end» : Int
  svtype : String
  tcn_em : Int
  lcn_em : String
deriving DecidableEq, Repr

/-- A copy-number row after the load-time preparation: `lcn_em` coerced to
an integer and `major_cn` derived. -/
structure CnRow where
  chrom : String
  start : Int
  «end» : Int
  svtype : String
  tcn_em : Int
  lcn_em : Int
  major_cn : Int
deriving DecidableEq, Repr

/-- Embedding of `cnas['lcn_em'].replace(['.'], '0')`: a cell equal to the
placeholder becomes the literal `0`, any other cell is untouched. -/
def replace_lcn (raw : String) : String :=
  if raw = "." then "0" else raw

/-- Embedding of `.astype(int)` on one cell. -/
def astype_int (s : String) : Option Int := pyInt s

/-- Load-time preparation of one copy-number row (lines 125-127 of
make_pyclone_input.py): coerce the placeholder to zero, parse, and derive
`major_cn = tcn_em - lcn_em`. -/
def prep_cn_row (r : CnRawRow) : Option CnRow :=
  (astype_int (replace_lcn r.lcn_em)).map fun l =>
    ⟨r.chrom, r.start, r.«end», r.svtype, r.tcn_em, l, r.tcn_em - l⟩

/-- Load-time preparation of the whole copy-number table; `.astype(int)`
fails the whole load if any cell fails to parse. -/
def prep_cnas (rows : List CnRawRow) : Option (List CnRow) :=
  rows.mapM prep_cn_row

/-- The per-segment tuple stored in the lookup dictionary by
`build_cn_lookup`: `(start, end, svtype, majorCN, minorCN, normalCN)`. -/
structure SegmentInfo where
  start : Int
  «end» : Int
  svtype : String
  majorCN : Int
  minorCN : Int
  normalCN : Int
deriving DecidableEq, Repr

/-- Dictionary update of `build_cn_lookup`: append the segment to the
chromosome's list when the key exists, otherwise add the key with a
singleton list.  A Python dict is an association list with distinct keys
looked up by `List.lookup`. -/
def cn_lookup_insert (out : List (String × List SegmentInfo)) (chrom : String)
    (seg : SegmentInfo) : List (String × List SegmentInfo) :=
  if (out.lookup chrom).isSome then
    out.map (fun p => if p.1 = chrom then (p.1, p.2 ++ [seg]) else p)
  else out ++ [(chrom, [seg])]

/-- The segment tuple `build_cn_lookup` constructs for one row: minor copy
number is the row's `lcn_em`, and the normal copy number is 1 on
chromosome `chrY` and 2 otherwise. -/
def row_segment_info (row : CnRow) : SegmentInfo :=
  ⟨row.start, row.«end», row.svtype, row.major_cn, row.lcn_em,
   if row.chrom = "chrY" then 1 else 2⟩

/-- Embedding of `build_cn_lookup`: fold the prepared copy-number table in
row order into a per-chromosome dictionary of segment tuples. -/
def build_cn_lookup (df : List CnRow) : List (String × List SegmentInfo) :=
  df.foldl (fun out row => cn_lookup_insert out row.chrom (row_segment_info row)) []

/-- Embedding of `isInSegment`: the query interval is fully contained in
the segment's bounds. -/
def isInSegment (start «end» : Int) (segmentInfo : SegmentInfo) : Bool :=
  decide (start ≥ segmentInfo.start) && decide («end» ≤ segmentInfo.«end»)

/-- Embedding of `query_cn_segment`.  The caller packs the coordinates into
a `chrom:start:end` string which the function immediately splits back; the
embedding passes the three components directly.  A chromosome missing from
the dictionary gives `none`; otherwise the first containing segment in list
order is returned, `none` if there is none. -/
def query_cn_segment (chrom : String) (start «end» : Int)
    (lookup : List (String × List SegmentInfo)) : Option SegmentInfo :=
  match lookup.lookup chrom with
  | none => none
  | some segments => segments.find? (fun segment => isInSegment start «end» segment)

/-! ## make_pyclone_input.py : merge_alterations -/

/-- One row of the pyclone-vi input table produced by the script, in its
fixed column order.  Purity is carried as the string extracted from the
VCF header (never numerically coerced). -/
structure PycloneRow where
  mutation_id : String
  sample_id : String
  ref_counts : Int
  alt_counts : Int
  major_cn : Int
  minor_cn : Int
  normal_cn : Int
  tumour_content : String
deriving DecidableEq, Repr

/-- The `mid` column computed at line 130 of make_pyclone_input.py: note
there is no separator between the end position and the reference allele. -/
def merge_mid (patientId : String) (r : MafRow) : String :=
  patientId ++ ":" ++ r.Chromosome ++ ":" ++ toString r.Start_Position ++ ":" ++
    toString r.End_Position ++ r.Reference_Allele ++ ">" ++ r.Tumor_Seq_Allele2

/-- The output row `merge_alterations` builds for one mutation row whose
copy-number segment was found; `none` when the segment lookup failed. -/
def mut_to_pyclone (patientId sampleId purity : String)
    (cnInfo : List (String × List SegmentInfo)) (row : MafRow) : Option PycloneRow :=
  (query_cn_segment row.Chromosome row.Start_Position row.End_Position cnInfo).map
    fun segment =>
      ⟨merge_mid patientId row, sampleId, row.t_ref_count, row.t_alt_count,
       segment.majorCN, segment.minorCN, segment.normalCN, purity⟩

/-- The for-loop of `merge_alterations` (lines 131-146) with its two
accumulators: the output list and the `numExcludedMuts` counter. -/
def merge_alterations_loop (patientId sampleId purity : String)
    (cnInfo : List (String × List SegmentInfo)) :
    List MafRow → List PycloneRow → Nat → List PycloneRow × Nat
  | [], output, numExcludedMuts => (output, numExcludedMuts)
  | row :: rest, output, numExcludedMuts =>
    match query_cn_segment row.Chromosome row.Start_Position row.End_Position cnInfo with
    | none => merge_alterations_loop patientId sampleId purity cnInfo rest output
        (numExcludedMuts + 1)
    | some segment => merge_alterations_loop patientId sampleId purity cnInfo rest
        (output ++ [⟨merge_mid patientId row, sampleId, row.t_ref_count, row.t_alt_count,
          segment.majorCN, segment.minorCN, segment.normalCN, purity⟩])
        numExcludedMuts

/-- Embedding of `merge_alterations`: prepare the copy-number table, build
the per-chromosome lookup, and run the merge loop over the mutation table.
The `ploidy` argument is accepted and unused, as in the source. -/
def merge_alterations (patientId sampleId purity ploidy : String)
    (muts : List MafRow) (cnaRows : List CnRawRow) : Option (List PycloneRow × Nat) :=
  (prep_cnas cnaRows).map fun cnas =>
    merge_alterations_loop patientId sampleId purity (build_cn_lookup cnas) muts [] 0

/-! ## merge_pyclone_inputs.py -/

/-- Embedding of the concatenation script: `pd.concat([pdf, mdf],
ignore_index=True)` is list append. -/
def merge_pyclone_inputs (pdf mdf : List PycloneRow) : List PycloneRow :=
  pdf ++ mdf

/-- The set of sample ids of a table, and the filter "rows whose sample_id
is one of the table's": used to state the round-trip property. -/
def sample_ids (df : List PycloneRow) : List String :=
  df.map (fun r => r.sample_id)

/-! ## Spec-side definitions -/

/-- Identity key as the specification's data-model section words it: the
concatenation of the patient/sample id, chromosome, start, end, and the
`ref>alt` allele string (with the `:` separator of the scripts' keys).
Kept distinct from the code-derived keys `mid` and `merge_mid` for the
refinement comparison in claim C9. -/
def spec_identity_key (sampleId : String) (r : MafRow) : String :=
  sampleId ++ ":" ++ r.Chromosome ++ ":" ++ toString r.Start_Position ++ ":" ++
    toString r.End_Position ++ ":" ++ r.Reference_Allele ++ ">" ++ r.Tumor_Seq_Allele2

/-! ## Key packing analysis

The `mid` key of `find_exclusive_mutations` is the five row fields (with
the integer positions printed) glued with the separators `:` and `>`.
These definitions expose that packing so uniqueness of the string keys can
be compared with distinctness of the field tuples. -/

/-- The five printed fields a row's `mid` key is built from. -/
def mid_fields (r : MafRow) : String × String × String × String × String :=
  (r.Chromosome, toString r.Start_Position, toString r.End_Position,
   r.Reference_Allele, r.Tumor_Seq_Allele2)

/-- Glue five printed fields with the separators of the `mid` key. -/
def glue_mid (t : String × String × String × String × String) : String :=
  t.1 ++ ":" ++ t.2.1 ++ ":" ++ t.2.2.1 ++ ":" ++ t.2.2.2.1 ++ ">" ++ t.2.2.2.2

/-- Separator discipline under which the `mid` packing is injective: the
chromosome and the printed positions contain no `:` and the reference
allele contains no `>`. -/
@[reducible] def sep_free (r : MafRow) : Prop :=
  ':' ∉ r.Chromosome.data ∧ ':' ∉ (toString r.Start_Position).data ∧
    ':' ∉ (toString r.End_Position).data ∧ '>' ∉ r.Reference_Allele.data

/-! ## General helper lemmas -/

theorem lookup_mem {β : Type} (a : String) (b : β) :
    ∀ l : List (String × β), l.lookup a = some b → (a, b) ∈ l := by
  intro l
  induction l with
  | nil => intro h; simp [List.lookup] at h
  | cons hd tl ih =>
    obtain ⟨k, v⟩ := hd
    intro h
    rw [List.lookup] at h
    cases hbeq : a == k with
    | true =>
      rw [hbeq] at h
      simp only [Option.some.injEq] at h
      have hak : a = k := eq_of_beq hbeq
      subst hak; subst h
      exact List.mem_cons_self _ _
    | false =>
      rw [hbeq] at h
      exact List.mem_cons_of_mem _ (ih h)

theorem append_sep_cancel (sep : Char) :
    ∀ a b t u : List Char, sep ∉ a → sep ∉ b →
      a ++ sep :: t = b ++ sep :: u → a = b ∧ t = u := by
  intro a
  induction a with
  | nil =>
    intro b t u _ hb h
    cases b with
    | nil => simpa using h
    | cons y ys =>
      simp only [List.nil_append, List.cons_append, List.cons.injEq] at h
      exact absurd (by rw [h.1]; exact List.mem_cons_self y ys) hb
  | cons x xs ih =>
    intro b t u ha hb h
    cases b with
    | nil =>
      simp only [List.nil_append, List.cons_append, List.cons.injEq] at h
      exact absurd (by rw [← h.1]; exact List.mem_cons_self x xs) ha
    | cons y ys =>
      simp only [List.cons_append, List.cons.injEq] at h
      have hrec := ih ys t u (fun hm => ha (List.mem_cons_of_mem _ hm))
        (fun hm => hb (List.mem_cons_of_mem _ hm)) h.2
      exact ⟨by rw [h.1, hrec.1], hrec.2⟩

theorem glue_mid_data (t : String × String × String × String × String) :
    (glue_mid t).data =
      t.1.data ++ ':' :: (t.2.1.data ++ ':' :: (t.2.2.1.data ++ ':' ::
        (t.2.2.2.1.data ++ '>' :: t.2.2.2.2.data))) := by
  have hc : (":" : String).data = [':'] := rfl
  have hg : (">" : String).data = ['>'] := rfl
  simp only [glue_mid, String.data_append, hc, hg, List.append_assoc,
    List.singleton_append, List.cons_append, List.nil_append]

theorem glue_mid_inj (t u : String × String × String × String × String)
    (ht : ':' ∉ t.1.data ∧ ':' ∉ t.2.1.data ∧ ':' ∉ t.2.2.1.data ∧ '>' ∉ t.2.2.2.1.data)
    (hu : ':' ∉ u.1.data ∧ ':' ∉ u.2.1.data ∧ ':' ∉ u.2.2.1.data ∧ '>' ∉ u.2.2.2.1.data)
    (h : glue_mid t = glue_mid u) : t = u := by
  obtain ⟨ta, tb, tc, td, te⟩ := t
  obtain ⟨ua, ub, uc, ud, ue⟩ := u
  have hd := congrArg String.data h
  rw [glue_mid_data, glue_mid_data] at hd
  simp only at hd ht hu
  obtain ⟨h1, hd⟩ := append_sep_cancel ':' _ _ _ _ ht.1 hu.1 hd
  obtain ⟨h2, hd⟩ := append_sep_cancel ':' _ _ _ _ ht.2.1 hu.2.1 hd
  obtain ⟨h3, hd⟩ := append_sep_cancel ':' _ _ _ _ ht.2.2.1 hu.2.2.1 hd
  obtain ⟨h4, h5⟩ := append_sep_cancel '>' _ _ _ _ ht.2.2.2 hu.2.2.2 hd
  have e1 : ta = ua := String.ext h1
  have e2 : tb = ub := String.ext h2
  have e3 : tc = uc := String.ext h3
  have e4 : td = ud := String.ext h4
  have e5 : te = ue := String.ext h5
  rw [e1, e2, e3, e4, e5]

theorem mid_eq_glue (r : MafRow) : mid r = glue_mid (mid_fields r) := rfl

theorem length_filterMap_add_countP {α β : Type} (f : α → Option β) :
    ∀ l : List α, (l.filterMap f).length + l.countP (fun a => (f a).isNone) = l.length := by
  intro l
  induction l with
  | nil => simp
  | cons a tl ih =>
    cases hf : f a with
    | none =>
      simp [List.filterMap_cons, hf, List.countP_cons]
      omega
    | some b =>
      simp [List.filterMap_cons, hf, List.countP_cons]
      omega

/-! ## Helper lemmas about the reconciliation pipeline -/

theorem add_absent_loop_eq (bam : Bam) :
    ∀ (muts : List MutId) (records : List MafRow) (skip : Nat),
      add_absent_loop bam muts records skip =
        (records ++ muts.filterMap (synth_row bam),
         skip + muts.countP (fun m => (stat_coverage_info bam m).isEmpty)) := by
  intro muts
  induction muts with
  | nil => intro records skip; simp [add_absent_loop]
  | cons m rest ih =>
    intro records skip
    cases hinfo : stat_coverage_info bam m with
    | nil =>
      have hs : synth_row bam m = none := by simp [synth_row, hinfo]
      simp only [add_absent_loop, hinfo]
      rw [ih, Prod.mk.injEq]
      constructor
      · simp [hs, List.filterMap_cons]
      · simp [List.countP_cons, hinfo]
        omega
    | cons info tail =>
      have hs : synth_row bam m =
          some ⟨m.chrom, m.start, m.«end», m.ref, m.alt, info.reads_all, 0⟩ := by
        simp [synth_row, hinfo]
      simp only [add_absent_loop, hinfo]
      rw [ih, Prod.mk.injEq]
      constructor
      · simp [hs, List.filterMap_cons]
      · simp [List.countP_cons, hinfo]

theorem add_absent_mutations_eq (mutdf : List MafRow) (muts : List MutId) (bam : Bam) :
    add_absent_mutations mutdf muts bam =
      (mutdf ++ muts.filterMap (synth_row bam),
       muts.countP (fun m => (stat_coverage_info bam m).isEmpty)) := by
  rw [add_absent_mutations, add_absent_loop_eq]
  simp

theorem synth_row_some (bam : Bam) (k : MutId) (h : stat_coverage_info bam k ≠ []) :
    ∃ info rest r', stat_coverage_info bam k = info :: rest ∧ synth_row bam k = some r' ∧
      midId r' = k ∧ r'.t_alt_count = 0 ∧ r'.t_ref_count = info.reads_all := by
  cases hinfo : stat_coverage_info bam k with
  | nil => exact absurd hinfo h
  | cons info rest =>
    refine ⟨info, rest, ⟨k.chrom, k.start, k.«end», k.ref, k.alt, info.reads_all, 0⟩,
      rfl, ?_, rfl, rfl, rfl⟩
    simp [synth_row, hinfo]

theorem synth_row_none (bam : Bam) (k : MutId) (h : stat_coverage_info bam k = []) :
    synth_row bam k = none := by
  rw [synth_row, h]

theorem reconcile_fst (pdf mdf : List MafRow) (pBam mBam : Bam) :
    (reconcile_mafs pdf mdf pBam mBam).1 =
      pdf ++ ((find_exclusive_mutations pdf mdf).2).filterMap (synth_row pBam) := by
  simp [reconcile_mafs, add_absent_mutations_eq]

theorem reconcile_snd (pdf mdf : List MafRow) (pBam mBam : Bam) :
    (reconcile_mafs pdf mdf pBam mBam).2 =
      mdf ++ ((find_exclusive_mutations pdf mdf).1).filterMap (synth_row mBam) := by
  simp [reconcile_mafs, add_absent_mutations_eq]

theorem mem_find_exclusive_fst (pdf mdf : List MafRow) (k : MutId) :
    k ∈ (find_exclusive_mutations pdf mdf).1 ↔ k ∈ pdf.map midId ∧ k ∉ mdf.map midId := by
  constructor
  · intro h
    have h2 := List.mem_filter.mp h
    refine ⟨List.mem_dedup.mp h2.1, fun hmem => ?_⟩
    have hfalse := h2.2
    rw [Bool.not_eq_true'] at hfalse
    have hc : (List.map midId mdf).dedup.contains k = true :=
      List.elem_iff.mpr (List.mem_dedup.mpr hmem)
    rw [hfalse] at hc
    exact Bool.false_ne_true hc
  · intro ⟨h1, h2⟩
    apply List.mem_filter.mpr
    refine ⟨List.mem_dedup.mpr h1, ?_⟩
    rw [Bool.not_eq_true']
    cases hcon : (List.map midId mdf).dedup.contains k with
    | false => rfl
    | true => exact absurd (List.mem_dedup.mp (List.elem_iff.mp hcon)) h2

theorem mem_find_exclusive_snd (pdf mdf : List MafRow) (k : MutId) :
    k ∈ (find_exclusive_mutations pdf mdf).2 ↔ k ∈ mdf.map midId ∧ k ∉ pdf.map midId := by
  constructor
  · intro h
    have h2 := List.mem_filter.mp h
    refine ⟨List.mem_dedup.mp h2.1, fun hmem => ?_⟩
    have hfalse := h2.2
    rw [Bool.not_eq_true'] at hfalse
    have hc : (List.map midId pdf).dedup.contains k = true :=
      List.elem_iff.mpr (List.mem_dedup.mpr hmem)
    rw [hfalse] at hc
    exact Bool.false_ne_true hc
  · intro ⟨h1, h2⟩
    apply List.mem_filter.mpr
    refine ⟨List.mem_dedup.mpr h1, ?_⟩
    rw [Bool.not_eq_true']
    cases hcon : (List.map midId pdf).dedup.contains k with
    | false => rfl
    | true => exact absurd (List.mem_dedup.mp (List.elem_iff.mp hcon)) h2

/-! ## Helper lemmas about the copy-number lookup and the merge loop -/

theorem cn_lookup_insert_inv (P : String → SegmentInfo → Prop)
    (out : List (String × List SegmentInfo)) (chrom : String) (seg : SegmentInfo)
    (hout : ∀ p ∈ out, ∀ s ∈ p.2, P p.1 s) (hseg : P chrom seg) :
    ∀ p ∈ cn_lookup_insert out chrom seg, ∀ s ∈ p.2, P p.1 s := by
  intro p hp s hs
  rw [cn_lookup_insert] at hp
  by_cases hkey : (out.lookup chrom).isSome
  · rw [if_pos hkey] at hp
    obtain ⟨q, hq, hqe⟩ := List.mem_map.mp hp
    by_cases hc : q.1 = chrom
    · rw [if_pos hc] at hqe
      subst hqe
      rcases List.mem_append.mp hs with h1 | h2
      · exact hout q hq s h1
      · have : s = seg := by simpa using h2
        subst this
        simpa [hc] using hseg
    · rw [if_neg hc] at hqe
      subst hqe
      exact hout q hq s hs
  · rw [if_neg hkey] at hp
    rcases List.mem_append.mp hp with h1 | h2
    · exact hout p h1 s hs
    · have : p = (chrom, [seg]) := by simpa using h2
      subst this
      have : s = seg := by simpa using hs
      subst this
      exact hseg

theorem build_cn_lookup_inv (P : String → SegmentInfo → Prop)
    (hrows : ∀ row : CnRow, P row.chrom (row_segment_info row)) :
    ∀ (df : List CnRow) (init : List (String × List SegmentInfo)),
      (∀ p ∈ init, ∀ s ∈ p.2, P p.1 s) →
      ∀ p ∈ df.foldl (fun out row => cn_lookup_insert out row.chrom (row_segment_info row)) init,
        ∀ s ∈ p.2, P p.1 s := by
  intro df
  induction df with
  | nil => intro init hinit; simpa using hinit
  | cons row rest ih =>
    intro init hinit
    simp only [List.foldl_cons]
    exact ih _ (cn_lookup_insert_inv P init row.chrom _ hinit (hrows row))

theorem mut_to_pyclone_isNone (patientId sampleId purity : String)
    (cnInfo : List (String × List SegmentInfo)) (row : MafRow) :
    (mut_to_pyclone patientId sampleId purity cnInfo row).isNone =
      (query_cn_segment row.Chromosome row.Start_Position row.End_Position cnInfo).isNone := by
  rw [mut_to_pyclone]
  cases query_cn_segment row.Chromosome row.Start_Position row.End_Position cnInfo <;> simp

theorem merge_alterations_loop_eq (patientId sampleId purity : String)
    (cnInfo : List (String × List SegmentInfo)) :
    ∀ (muts : List MafRow) (output : List PycloneRow) (excl : Nat),
      merge_alterations_loop patientId sampleId purity cnInfo muts output excl =
        (output ++ muts.filterMap (mut_to_pyclone patientId sampleId purity cnInfo),
         excl + muts.countP (fun row =>
           (query_cn_segment row.Chromosome row.Start_Position row.End_Position cnInfo).isNone)) := by
  intro muts
  induction muts with
  | nil => intro output excl; simp [merge_alterations_loop]
  | cons row rest ih =>
    intro output excl
    cases hq : query_cn_segment row.Chromosome row.Start_Position row.End_Position cnInfo with
    | none =>
      have hm : mut_to_pyclone patientId sampleId purity cnInfo row = none := by
        simp [mut_to_pyclone, hq]
      simp only [merge_alterations_loop, hq]
      rw [ih, Prod.mk.injEq]
      constructor
      · simp [hm, List.filterMap_cons]
      · simp [List.countP_cons, hq]
        omega
    | some segment =>
      have hm : mut_to_pyclone patientId sampleId purity cnInfo row =
          some ⟨merge_mid patientId row, sampleId, row.t_ref_count, row.t_alt_count,
            segment.majorCN, segment.minorCN, segment.normalCN, purity⟩ := by
        simp [mut_to_pyclone, hq]
      simp only [merge_alterations_loop, hq]
      rw [ih, Prod.mk.injEq]
      constructor
      · simp [hm, List.filterMap_cons]
      · simp [List.countP_cons, hq]

/-! ## Helper lemmas about the purity/ploidy scan -/

theorem gpp_step_fst_some (line : String) (p q : Option String) (h : p.isSome = true) :
    (gpp_step line p q).1.isSome = true := by
  rw [gpp_step]
  split
  · simp
  · split
    · exact h
    · exact h

theorem gpp_step_snd_some (line : String) (p q : Option String) (h : q.isSome = true) :
    (gpp_step line p q).2.isSome = true := by
  rw [gpp_step]
  split
  · exact h
  · split
    · simp
    · exact h

theorem gpp_step_purity (line : String) (p q : Option String)
    (h : purity_tagged line = true) : (gpp_step line p q).1.isSome = true := by
  rw [purity_tagged] at h
  simp [gpp_step, h]

theorem gpp_step_ploidy_only (line : String) (p q : Option String)
    (h : ploidy_only line = true) : (gpp_step line p q).2.isSome = true := by
  rw [ploidy_only, Bool.and_eq_true, Bool.not_eq_true'] at h
  simp [gpp_step, h.1, h.2]

theorem gpp_step_no_purity (line : String) (q : Option String)
    (h : purity_tagged line = false) : (gpp_step line none q).1 = none := by
  rw [purity_tagged] at h
  rw [gpp_step]
  split
  · simp_all
  · split
    · rfl
    · rfl

theorem gpp_step_no_ploidy_only (line : String) (p : Option String)
    (h : ploidy_only line = false) : (gpp_step line p none).2 = none := by
  rw [ploidy_only] at h
  rw [gpp_step]
  split
  · rfl
  · split
    · rename_i h1 h2
      have hpu : strContains line "##purity" = false := by
        cases hx : strContains line "##purity" with
        | false => rfl
        | true => exact absurd hx h1
      rw [h2, hpu] at h
      simp at h
    · rfl

theorem gpp_loop_none_of_no_purity (lines : List String)
    (h : ∀ a, purity_tagged (readline lines a) = false) :
    ∀ (fuel i : Nat) (q : Option String),
      get_purity_ploidy_loop lines fuel i none q = none := by
  intro fuel
  induction fuel with
  | zero => intro i q; rfl
  | succ n ih =>
    intro i q
    rw [get_purity_ploidy_loop]
    rw [if_pos (by simp)]
    rw [gpp_step_no_purity _ _ (h i)]
    exact ih (i + 1) _

theorem gpp_loop_none_of_no_ploidy_only (lines : List String)
    (h : ∀ a, ploidy_only (readline lines a) = false) :
    ∀ (fuel i : Nat) (p : Option String),
      get_purity_ploidy_loop lines fuel i p none = none := by
  intro fuel
  induction fuel with
  | zero => intro i p; rfl
  | succ n ih =>
    intro i p
    rw [get_purity_ploidy_loop]
    rw [if_pos (by simp)]
    rw [gpp_step_no_ploidy_only _ _ (h i)]
    exact ih (i + 1) _

theorem gpp_loop_terminates (lines : List String) :
    ∀ (n i : Nat) (p q : Option String),
      (p.isSome = true ∨ ∃ a, i ≤ a ∧ a ≤ i + n ∧ purity_tagged (readline lines a) = true) →
      (q.isSome = true ∨ ∃ b, i ≤ b ∧ b ≤ i + n ∧ ploidy_only (readline lines b) = true) →
      ∃ pv qv, get_purity_ploidy_loop lines (n + 2) i p q = some (some pv, some qv) := by
  intro n
  induction n with
  | zero =>
    intro i p q hp hq
    have hpi : p.isSome = true ∨ purity_tagged (readline lines i) = true := by
      rcases hp with h | ⟨a, ha1, ha2, ha3⟩
      · exact Or.inl h
      · have : a = i := by omega
        exact Or.inr (this ▸ ha3)
    have hqi : q.isSome = true ∨ ploidy_only (readline lines i) = true := by
      rcases hq with h | ⟨b, hb1, hb2, hb3⟩
      · exact Or.inl h
      · have : b = i := by omega
        exact Or.inr (this ▸ hb3)
    match hpv : p, hqv : q with
    | some pv, some qv =>
      exact ⟨pv, qv, by rw [get_purity_ploidy_loop, if_neg (by simp)]⟩
    | some pv, none =>
      have hb : ploidy_only (readline lines i) = true := by
        rcases hqi with h | h
        · simp at h
        · exact h
      have hst2 := gpp_step_ploidy_only (readline lines i) (some pv) none hb
      have hst1 := gpp_step_fst_some (readline lines i) (some pv) none (by simp)
      obtain ⟨pv2, hpv2⟩ := Option.isSome_iff_exists.mp hst1
      obtain ⟨qv2, hqv2⟩ := Option.isSome_iff_exists.mp hst2
      refine ⟨pv2, qv2, ?_⟩
      rw [get_purity_ploidy_loop, if_pos (by simp)]
      rw [get_purity_ploidy_loop]
      rw [hpv2, hqv2]
      rw [if_neg (by simp)]
    | none, some qv =>
      have ha : purity_tagged (readline lines i) = true := by
        rcases hpi with h | h
        · simp at h
        · exact h
      have hst1 := gpp_step_purity (readline lines i) none (some qv) ha
      have hst2 := gpp_step_snd_some (readline lines i) none (some qv) (by simp)
      obtain ⟨pv2, hpv2⟩ := Option.isSome_iff_exists.mp hst1
      obtain ⟨qv2, hqv2⟩ := Option.isSome_iff_exists.mp hst2
      refine ⟨pv2, qv2, ?_⟩
      rw [get_purity_ploidy_loop, if_pos (by simp)]
      rw [get_purity_ploidy_loop]
      rw [hpv2, hqv2]
      rw [if_neg (by simp)]
    | none, none =>
      have ha : purity_tagged (readline lines i) = true := by
        rcases hpi with h | h
        · simp at h
        · exact h
      have hb : ploidy_only (readline lines i) = true := by
        rcases hqi with h | h
        · simp at h
        · exact h
      rw [ploidy_only, Bool.and_eq_true, Bool.not_eq_true'] at hb
      rw [purity_tagged] at ha
      rw [ha] at hb
      exact absurd hb.2 (by simp)
  | succ n ih =>
    intro i p q hp hq
    by_cases hc : (p.isNone || q.isNone) = true
    · rw [get_purity_ploidy_loop, if_pos hc]
      apply ih (i + 1)
      · rcases hp with h | ⟨a, ha1, ha2, ha3⟩
        · exact Or.inl (gpp_step_fst_some _ _ _ h)
        · by_cases hai : a = i
          · exact Or.inl (gpp_step_purity _ _ _ (hai ▸ ha3))
          · exact Or.inr ⟨a, by omega, by omega, ha3⟩
      · rcases hq with h | ⟨b, hb1, hb2, hb3⟩
        · exact Or.inl (gpp_step_snd_some _ _ _ h)
        · by_cases hbi : b = i
          · exact Or.inl (gpp_step_ploidy_only _ _ _ (hbi ▸ hb3))
          · exact Or.inr ⟨b, by omega, by omega, hb3⟩
    · cases p with
      | none => exact absurd (by simp) hc
      | some pv =>
        cases q with
        | none => exact absurd (by simp) hc
        | some qv =>
          exact ⟨pv, qv, by rw [get_purity_ploidy_loop, if_neg (by simp)]⟩

/-! ## Claim theorems -/

/-- C2: for every query interval (chromosome, start, end) and every
per-chromosome segment index, `query_cn_segment` returns the first segment
in row order that fully contains the query (query start at or after segment
start and query end at or before segment end), and returns the not-found
sentinel `none` both when the chromosome is absent from the index and when
no segment on that chromosome contains the interval. -/
theorem C2_query_cn_segment (chrom : String) (start «end» : Int)
    (lookup : List (String × List SegmentInfo)) :
    (lookup.lookup chrom = none → query_cn_segment chrom start «end» lookup = none)
    ∧ ∀ segments, lookup.lookup chrom = some segments →
        ((query_cn_segment chrom start «end» lookup = none ↔
            ∀ s ∈ segments, isInSegment start «end» s = false)
         ∧ ∀ seg, (query_cn_segment chrom start «end» lookup = some seg ↔
             isInSegment start «end» seg = true ∧
             ∃ i, ∃ hi : i < segments.length, segments[i] = seg ∧
               ∀ j : Nat, (hj : j < i) → isInSegment start «end» segments[j] = false)) := by
  constructor
  · intro h
    simp [query_cn_segment, h]
  · intro segments hseg
    have hq : query_cn_segment chrom start «end» lookup =
        segments.find? (fun segment => isInSegment start «end» segment) := by
      simp [query_cn_segment, hseg]
    constructor
    · rw [hq, List.find?_eq_none]
      constructor
      · intro hf s hs
        have hx := hf s hs
        simpa using hx
      · intro hf s hs
        simp [hf s hs]
    · intro seg
      rw [hq, List.find?_eq_some_iff_getElem]
      constructor
      · rintro ⟨hps, i, hi, hgi, hj⟩
        refine ⟨hps, i, hi, hgi, fun j hj2 => ?_⟩
        have hx := hj j hj2
        simpa using hx
      · rintro ⟨hps, i, hi, hgi, hj⟩
        refine ⟨hps, i, hi, hgi, fun j hj2 => ?_⟩
        simp [hj j hj2]

/-- Witness for C2 at the specification's worked example: the mutation
window chr1:100-100 is resolved to the segment (1, 200, DUP, 3, 1, 2). -/
theorem C2_query_cn_segment_witness :
    query_cn_segment "chr1" 100 100 [("chr1", [⟨1, 200, "DUP", 3, 1, 2⟩])] =
      some ⟨1, 200, "DUP", 3, 1, 2⟩ :=
  (((C2_query_cn_segment "chr1" 100 100 [("chr1", [⟨1, 200, "DUP", 3, 1, 2⟩])]).2
      [⟨1, 200, "DUP", 3, 1, 2⟩] rfl).2 ⟨1, 200, "DUP", 3, 1, 2⟩).mpr
    ⟨by decide, 0, by decide, rfl, fun j hj => absurd hj (Nat.not_lt_zero j)⟩

/-- C3: for every copy-number row, the derived major copy number equals
`tcn_em` minus `lcn_em` with the placeholder `.` coerced to zero first; in
particular a placeholder row gets major copy number equal to `tcn_em`. -/
theorem C3_major_cn (r : CnRawRow) :
    (r.lcn_em = "." →
      prep_cn_row r = some ⟨r.chrom, r.start, r.«end», r.svtype, r.tcn_em, 0, r.tcn_em⟩)
    ∧ ∀ out, prep_cn_row r = some out →
        out.major_cn = out.tcn_em - out.lcn_em ∧ out.tcn_em = r.tcn_em ∧
        (r.lcn_em ≠ "." → astype_int r.lcn_em = some out.lcn_em) := by
  constructor
  · intro h
    have h0 : astype_int (replace_lcn r.lcn_em) = some 0 := by
      rw [h]; decide
    rw [prep_cn_row, h0]
    simp
  · intro out hout
    rw [prep_cn_row] at hout
    obtain ⟨l, hl, hle⟩ := Option.map_eq_some'.mp hout
    subst hle
    refine ⟨rfl, rfl, fun hne => ?_⟩
    rwa [replace_lcn, if_neg hne] at hl

/-- Witness for C3: a row with the placeholder lesser copy number and
total copy number 4 yields lesser copy number 0 and major copy number 4. -/
theorem C3_major_cn_witness :
    prep_cn_row ⟨"chr1", 1, 200, "DUP", 4, "."⟩ =
      some ⟨"chr1", 1, 200, "DUP", 4, 0, 4⟩ :=
  (C3_major_cn ⟨"chr1", 1, 200, "DUP", 4, "."⟩).1 rfl

/-- C5: for tables with disjoint sample-id sets, concatenating them and
filtering back by each original table's sample ids reproduces that table
exactly, row for row. -/
theorem C5_concat_round_trip (pdf mdf : List PycloneRow)
    (hdisj : ∀ r ∈ pdf, ∀ s ∈ mdf, r.sample_id ≠ s.sample_id) :
    (merge_pyclone_inputs pdf mdf).filter
        (fun r => (sample_ids pdf).contains r.sample_id) = pdf
    ∧ (merge_pyclone_inputs pdf mdf).filter
        (fun r => (sample_ids mdf).contains r.sample_id) = mdf := by
  constructor
  · rw [merge_pyclone_inputs, List.filter_append]
    have h1 : pdf.filter (fun r => (sample_ids pdf).contains r.sample_id) = pdf :=
      List.filter_eq_self.mpr fun r hr =>
        List.elem_iff.mpr (List.mem_map.mpr ⟨r, hr, rfl⟩)
    have h2 : mdf.filter (fun r => (sample_ids pdf).contains r.sample_id) = [] := by
      rw [List.filter_eq_nil_iff]
      intro s hs hcon
      obtain ⟨r, hr, hre⟩ := List.mem_map.mp (List.elem_iff.mp hcon)
      exact hdisj r hr s hs hre
    rw [h1, h2, List.append_nil]
  · rw [merge_pyclone_inputs, List.filter_append]
    have h1 : mdf.filter (fun r => (sample_ids mdf).contains r.sample_id) = mdf :=
      List.filter_eq_self.mpr fun r hr =>
        List.elem_iff.mpr (List.mem_map.mpr ⟨r, hr, rfl⟩)
    have h2 : pdf.filter (fun r => (sample_ids mdf).contains r.sample_id) = [] := by
      rw [List.filter_eq_nil_iff]
      intro s hs hcon
      obtain ⟨r, hr, hre⟩ := List.mem_map.mp (List.elem_iff.mp hcon)
      exact hdisj s hs r hr hre.symm
    rw [h1, h2, List.nil_append]

/-- Witness for C5 on one primary and one metastatic row with distinct
sample ids. -/
theorem C5_concat_round_trip_witness :
    (merge_pyclone_inputs [⟨"m1", "P", 10, 5, 3, 1, 2, "0.65"⟩]
        [⟨"m1", "M", 8, 2, 3, 1, 2, "0.5"⟩]).filter
      (fun r => (sample_ids [⟨"m1", "P", 10, 5, 3, 1, 2, "0.65"⟩]).contains r.sample_id) =
      [⟨"m1", "P", 10, 5, 3, 1, 2, "0.65"⟩] :=
  (C5_concat_round_trip [⟨"m1", "P", 10, 5, 3, 1, 2, "0.65"⟩]
    [⟨"m1", "M", 8, 2, 3, 1, 2, "0.5"⟩] (by decide)).1

/-- C6: every segment stored in the copy-number index carries normal copy
number 1 when its chromosome is chrY and 2 for every other chromosome. -/
theorem C6_normal_cn (df : List CnRow) (chrom : String) (segs : List SegmentInfo)
    (h : (build_cn_lookup df).lookup chrom = some segs) :
    ∀ s ∈ segs, s.normalCN = if chrom = "chrY" then 1 else 2 := by
  have hmem := lookup_mem chrom segs (build_cn_lookup df) h
  rw [build_cn_lookup] at hmem
  have hinv := build_cn_lookup_inv (fun c s => s.normalCN = if c = "chrY" then 1 else 2)
    (fun row => rfl) df [] (by simp) (chrom, segs) hmem
  simpa using hinv

/-- Witness for C6 on a one-row chrY table. -/
theorem C6_normal_cn_witness :
    (⟨1, 10, "DEL", 1, 0, 1⟩ : SegmentInfo).normalCN = if "chrY" = "chrY" then 1 else 2 :=
  C6_normal_cn [⟨"chrY", 1, 10, "DEL", 1, 0, 1⟩] "chrY" [⟨1, 10, "DEL", 1, 0, 1⟩]
    (by decide) ⟨1, 10, "DEL", 1, 0, 1⟩ (by decide)

/-- C7: in `add_absent_mutations`, a mutation whose depth query returns no
coverage records contributes no synthesized row and bumps the skip counter,
and the remaining mutations are still processed: the output is the original
table followed by the synthesized rows of exactly the covered mutations,
and the counter equals the number of uncovered mutations. -/
theorem C7_skip_empty_coverage (mutdf : List MafRow) (absentMuts : List MutId) (bam : Bam) :
    (add_absent_mutations mutdf absentMuts bam).2 =
      absentMuts.countP (fun m => (stat_coverage_info bam m).isEmpty)
    ∧ (add_absent_mutations mutdf absentMuts bam).1 =
      mutdf ++ absentMuts.filterMap (synth_row bam)
    ∧ ∀ m ∈ absentMuts, stat_coverage_info bam m = [] → synth_row bam m = none := by
  rw [add_absent_mutations_eq]
  exact ⟨rfl, rfl, fun m _ h => synth_row_none bam m h⟩

/-- Witness for C7: a single absent mutation with an empty coverage result
is skipped (counter 1, no synthesized row). -/
theorem C7_skip_empty_coverage_witness :
    (add_absent_mutations [] [⟨"chr1", 100, 100, "A", "G"⟩] (fun _ _ _ => [])).2 = 1
    ∧ synth_row (fun _ _ _ => []) ⟨"chr1", 100, 100, "A", "G"⟩ = none := by
  have h := C7_skip_empty_coverage [] [⟨"chr1", 100, 100, "A", "G"⟩] (fun _ _ _ => [])
  exact ⟨by rw [h.1]; decide, h.2.2 ⟨"chr1", 100, 100, "A", "G"⟩ (by decide) rfl⟩

/-- C8: the reconciliation step is non-destructive: each output table
starts with the original input table unchanged, and the synthesized
absent-mutation rows are only appended after it. -/
theorem C8_nondestructive_union (pdf mdf : List MafRow) (pBam mBam : Bam) :
    (reconcile_mafs pdf mdf pBam mBam).1.take pdf.length = pdf
    ∧ (reconcile_mafs pdf mdf pBam mBam).1.drop pdf.length =
        ((find_exclusive_mutations pdf mdf).2).filterMap (synth_row pBam)
    ∧ (reconcile_mafs pdf mdf pBam mBam).2.take mdf.length = mdf
    ∧ (reconcile_mafs pdf mdf pBam mBam).2.drop mdf.length =
        ((find_exclusive_mutations pdf mdf).1).filterMap (synth_row mBam) := by
  rw [reconcile_fst, reconcile_snd]
  refine ⟨?_, ?_, ?_, ?_⟩ <;> simp

/-- C10: in the merge loop of `merge_alterations`, every input mutation row
either contributes exactly one output row (in input order) or bumps the
exclusion counter, so output length plus exclusion count equals input
length. -/
theorem C10_merge_partition (patientId sampleId purity : String)
    (cnInfo : List (String × List SegmentInfo)) (muts : List MafRow) :
    (merge_alterations_loop patientId sampleId purity cnInfo muts [] 0).1 =
      muts.filterMap (mut_to_pyclone patientId sampleId purity cnInfo)
    ∧ (merge_alterations_loop patientId sampleId purity cnInfo muts [] 0).2 =
      muts.countP (fun row =>
        (query_cn_segment row.Chromosome row.Start_Position row.End_Position cnInfo).isNone)
    ∧ (merge_alterations_loop patientId sampleId purity cnInfo muts [] 0).1.length +
        (merge_alterations_loop patientId sampleId purity cnInfo muts [] 0).2 = muts.length := by
  have heq := merge_alterations_loop_eq patientId sampleId purity cnInfo muts [] 0
  rw [heq]
  refine ⟨by simp, by simp, ?_⟩
  have hlen := length_filterMap_add_countP (mut_to_pyclone patientId sampleId purity cnInfo) muts
  have hcp : muts.countP (fun row => (mut_to_pyclone patientId sampleId purity cnInfo row).isNone) =
      muts.countP (fun row =>
        (query_cn_segment row.Chromosome row.Start_Position row.End_Position cnInfo).isNone) := by
    apply List.countP_congr
    intro row hrow
    rw [mut_to_pyclone_isNone]
  simp only [List.nil_append, Nat.zero_add]
  rw [← hcp]
  exact hlen

/-- C1 (amended): when the depth query yields at least one coverage record
for every exclusive mutation, reconciliation makes every mutation identity
of either input table appear in both output tables, and the row synthesized
in the other sample's table for a private mutation carries alternate read
count 0 and reference read count equal to the first queried coverage
record's `reads_all`.  (As stated the claim fails when a depth query comes
back empty: that mutation is skipped, see the counterexample.) -/
theorem C1_reconciliation (pdf mdf : List MafRow) (pBam mBam : Bam)
    (hp : ∀ k ∈ (find_exclusive_mutations pdf mdf).1, stat_coverage_info mBam k ≠ [])
    (hm : ∀ k ∈ (find_exclusive_mutations pdf mdf).2, stat_coverage_info pBam k ≠ []) :
    (∀ r ∈ pdf ++ mdf,
        (∃ r' ∈ (reconcile_mafs pdf mdf pBam mBam).1, midId r' = midId r) ∧
        (∃ r' ∈ (reconcile_mafs pdf mdf pBam mBam).2, midId r' = midId r))
    ∧ (∀ k ∈ (find_exclusive_mutations pdf mdf).1,
        ∃ r' ∈ (reconcile_mafs pdf mdf pBam mBam).2,
          midId r' = k ∧ r'.t_alt_count = 0 ∧
          ∃ info rest, stat_coverage_info mBam k = info :: rest ∧
            r'.t_ref_count = info.reads_all)
    ∧ (∀ k ∈ (find_exclusive_mutations pdf mdf).2,
        ∃ r' ∈ (reconcile_mafs pdf mdf pBam mBam).1,
          midId r' = k ∧ r'.t_alt_count = 0 ∧
          ∃ info rest, stat_coverage_info pBam k = info :: rest ∧
            r'.t_ref_count = info.reads_all) := by
  refine ⟨?_, ?_, ?_⟩
  · intro r hr
    rcases List.mem_append.mp hr with hrp | hrm
    · constructor
      · exact ⟨r, by rw [reconcile_fst]; exact List.mem_append_left _ hrp, rfl⟩
      · by_cases hmem : midId r ∈ mdf.map midId
        · obtain ⟨r2, hr2, hr2e⟩ := List.mem_map.mp hmem
          exact ⟨r2, by rw [reconcile_snd]; exact List.mem_append_left _ hr2, hr2e⟩
        · have hk : midId r ∈ (find_exclusive_mutations pdf mdf).1 :=
            (mem_find_exclusive_fst pdf mdf (midId r)).mpr
              ⟨List.mem_map.mpr ⟨r, hrp, rfl⟩, hmem⟩
          obtain ⟨info, rest, r', hinfo, hsynth, hmid, _, _⟩ :=
            synth_row_some mBam (midId r) (hp _ hk)
          refine ⟨r', ?_, hmid⟩
          rw [reconcile_snd]
          exact List.mem_append_right _ (List.mem_filterMap.mpr ⟨midId r, hk, hsynth⟩)
    · constructor
      · by_cases hmem : midId r ∈ pdf.map midId
        · obtain ⟨r2, hr2, hr2e⟩ := List.mem_map.mp hmem
          exact ⟨r2, by rw [reconcile_fst]; exact List.mem_append_left _ hr2, hr2e⟩
        · have hk : midId r ∈ (find_exclusive_mutations pdf mdf).2 :=
            (mem_find_exclusive_snd pdf mdf (midId r)).mpr
              ⟨List.mem_map.mpr ⟨r, hrm, rfl⟩, hmem⟩
          obtain ⟨info, rest, r', hinfo, hsynth, hmid, _, _⟩ :=
            synth_row_some pBam (midId r) (hm _ hk)
          refine ⟨r', ?_, hmid⟩
          rw [reconcile_fst]
          exact List.mem_append_right _ (List.mem_filterMap.mpr ⟨midId r, hk, hsynth⟩)
      · exact ⟨r, by rw [reconcile_snd]; exact List.mem_append_left _ hrm, rfl⟩
  · intro k hk
    obtain ⟨info, rest, r', hinfo, hsynth, hmid, halt, href⟩ :=
      synth_row_some mBam k (hp k hk)
    refine ⟨r', ?_, hmid, halt, info, rest, hinfo, href⟩
    rw [reconcile_snd]
    exact List.mem_append_right _ (List.mem_filterMap.mpr ⟨k, hk, hsynth⟩)
  · intro k hk
    obtain ⟨info, rest, r', hinfo, hsynth, hmid, halt, href⟩ :=
      synth_row_some pBam k (hm k hk)
    refine ⟨r', ?_, hmid, halt, info, rest, hinfo, href⟩
    rw [reconcile_fst]
    exact List.mem_append_right _ (List.mem_filterMap.mpr ⟨k, hk, hsynth⟩)

/-- Counterexample to C1 as stated: with the metastatic alignment source
returning no coverage anywhere, the primary-specific mutation is skipped,
so its identity key occurs among the inputs but not in the reconciled
metastatic output table. -/
theorem C1_reconciliation_cex :
    ((([⟨"chr1", 100, 100, "A", "G", 10, 5⟩] ++
        [⟨"chr2", 7, 7, "C", "T", 20, 3⟩] : List MafRow).map midId).contains
      (midId ⟨"chr1", 100, 100, "A", "G", 10, 5⟩) = true)
    ∧ (((reconcile_mafs [⟨"chr1", 100, 100, "A", "G", 10, 5⟩]
          [⟨"chr2", 7, 7, "C", "T", 20, 3⟩]
          (fun _ _ _ => []) (fun _ _ _ => [])).2.map midId).contains
      (midId ⟨"chr1", 100, 100, "A", "G", 10, 5⟩) = false) :=
  ⟨by decide, by decide⟩

/-- Witness for C1 with an alignment source that reports one coverage
record of depth 42 everywhere. -/
theorem C1_reconciliation_witness :
    (∃ r' ∈ (reconcile_mafs [⟨"chr1", 100, 100, "A", "G", 10, 5⟩]
        [⟨"chr2", 7, 7, "C", "T", 20, 3⟩]
        (fun _ _ _ => ([⟨42⟩] : List CoverageRec)) (fun _ _ _ => ([⟨42⟩] : List CoverageRec))).1,
      midId r' = midId ⟨"chr1", 100, 100, "A", "G", 10, 5⟩)
    ∧ (∃ r' ∈ (reconcile_mafs [⟨"chr1", 100, 100, "A", "G", 10, 5⟩]
        [⟨"chr2", 7, 7, "C", "T", 20, 3⟩]
        (fun _ _ _ => ([⟨42⟩] : List CoverageRec)) (fun _ _ _ => ([⟨42⟩] : List CoverageRec))).2,
      midId r' = midId ⟨"chr1", 100, 100, "A", "G", 10, 5⟩) :=
  (C1_reconciliation [⟨"chr1", 100, 100, "A", "G", 10, 5⟩]
      [⟨"chr2", 7, 7, "C", "T", 20, 3⟩]
      (fun _ _ _ => ([⟨42⟩] : List CoverageRec)) (fun _ _ _ => ([⟨42⟩] : List CoverageRec))
      (by decide) (by decide)).1
    ⟨"chr1", 100, 100, "A", "G", 10, 5⟩ (by decide)

/-- C4 (amended): the purity/ploidy scan terminates with both scalar
values exactly when some line carries the purity tag and some line carries
the ploidy tag without the purity tag (the `elif` never fires on a line
that also matches `##purity`); it runs forever when the purity tag never
occurs, when no ploidy-tagged line is free of the purity tag, and in
particular when the ploidy tag never occurs. -/
theorem C4_get_purity_ploidy (lines : List String) :
    ((∃ i, purity_tagged (readline lines i) = true) →
     (∃ j, ploidy_only (readline lines j) = true) →
      ∃ fuel p q, get_purity_ploidy lines fuel = some (some p, some q))
    ∧ ((∀ i, purity_tagged (readline lines i) = false) → gpp_diverges lines)
    ∧ ((∀ i, ploidy_only (readline lines i) = false) → gpp_diverges lines)
    ∧ ((∀ i, ploidy_tagged (readline lines i) = false) → gpp_diverges lines) := by
  refine ⟨?_, ?_, ?_, ?_⟩
  · rintro ⟨i, hi⟩ ⟨j, hj⟩
    obtain ⟨pv, qv, h⟩ := gpp_loop_terminates lines (max i j) 0 none none
      (Or.inr ⟨i, Nat.zero_le i, by omega, hi⟩)
      (Or.inr ⟨j, Nat.zero_le j, by omega, hj⟩)
    exact ⟨max i j + 2, pv, qv, h⟩
  · intro h fuel
    exact gpp_loop_none_of_no_purity lines h fuel 0 none
  · intro h fuel
    exact gpp_loop_none_of_no_ploidy_only lines h fuel 0 none
  · intro h fuel
    apply gpp_loop_none_of_no_ploidy_only lines ?_ fuel 0 none
    intro a
    have ha := h a
    rw [ploidy_tagged] at ha
    rw [ploidy_only, ha]
    rfl

/-- Counterexample to C4 as stated: a stream whose single line carries both
tags is purity-tagged and ploidy-tagged, yet the scan never finds a ploidy
value and diverges. -/
theorem C4_get_purity_ploidy_cex :
    purity_tagged (readline ["##purity=0.5##ploidy=2.1"] 0) = true
    ∧ ploidy_tagged (readline ["##purity=0.5##ploidy=2.1"] 0) = true
    ∧ gpp_diverges ["##purity=0.5##ploidy=2.1"] := by
  refine ⟨by decide, by decide, ?_⟩
  intro fuel
  apply gpp_loop_none_of_no_ploidy_only _ ?_ fuel 0 none
  intro a
  match a with
  | 0 => decide
  | n + 1 =>
    have hrl : readline ["##purity=0.5##ploidy=2.1"] (n + 1) = "" := by
      rw [readline]
      apply List.getD_eq_default
      simp
    rw [hrl]
    decide

/-- Witness for C4 on a stream with separate purity and ploidy lines. -/
theorem C4_get_purity_ploidy_witness :
    ∃ fuel p q,
      get_purity_ploidy ["##purity=0.65", "##ploidy=2.1"] fuel = some (some p, some q) :=
  (C4_get_purity_ploidy ["##purity=0.65", "##ploidy=2.1"]).1
    ⟨0, by decide⟩ ⟨1, by decide⟩

/-- C9 (amended): under the separator discipline (no `:` in the chromosome
or in the printed positions, no `>` in the reference allele), the `mid`
keys of a table are pairwise distinct exactly when the rows' printed field
tuples (chromosome, start, end, reference allele, alternate allele) are
pairwise distinct; the scripts themselves enforce no uniqueness, and the
key of `find_exclusive_mutations` carries no patient/sample id at all. -/
theorem C9_identity_key (tbl : List MafRow) (h : ∀ r ∈ tbl, sep_free r) :
    (tbl.map mid).Nodup ↔ (tbl.map mid_fields).Nodup := by
  have hmap : tbl.map mid = (tbl.map mid_fields).map glue_mid := by
    rw [List.map_map]; rfl
  rw [hmap]
  constructor
  · exact fun hn => hn.of_map _
  · intro hn
    apply List.Nodup.map_on ?_ hn
    intro x hx y hy hxy
    obtain ⟨rx, hrx, hrxe⟩ := List.mem_map.mp hx
    obtain ⟨ry, hry, hrye⟩ := List.mem_map.mp hy
    subst hrxe; subst hrye
    exact glue_mid_inj _ _ (h rx hrx) (h ry hry) hxy

/-- Counterexample to C9 as stated: on a concrete record, neither the key
of `find_exclusive_mutations` (which has no patient/sample id) nor the key
of `merge_alterations` (which omits the separator before the allele
string) equals the spec's concatenation including the patient id. -/
theorem C9_identity_key_cex :
    mid ⟨"chr1", 100, 100, "A", "G", 10, 5⟩ ≠
      spec_identity_key "P1" ⟨"chr1", 100, 100, "A", "G", 10, 5⟩
    ∧ merge_mid "P1" ⟨"chr1", 100, 100, "A", "G", 10, 5⟩ ≠
      spec_identity_key "P1" ⟨"chr1", 100, 100, "A", "G", 10, 5⟩ :=
  ⟨by decide, by decide⟩

/-- Witness for C9 on a two-row table satisfying the separator
discipline. -/
theorem C9_identity_key_witness :
    ([⟨"chr1", 100, 100, "A", "G", 10, 5⟩, ⟨"chr2", 7, 7, "C", "T", 20, 3⟩].map mid).Nodup ↔
      ([⟨"chr1", 100, 100, "A", "G", 10, 5⟩,
        ⟨"chr2", 7, 7, "C", "T", 20, 3⟩].map mid_fields).Nodup :=
  C9_identity_key [⟨"chr1", 100, 100, "A", "G", 10, 5⟩, ⟨"chr2", 7, 7, "C", "T", 20, 3⟩]
    (by decide)
